import Mathlib

/-!
Verification development for the job orchestration subsystem of the
keywordbatch repository (services/task_manager.py, with the collaborator
contracts of services/file_processor.py and services/api_client.py treated
as oracle data).

Modelling conventions:
* Python dicts keyed by job id become insertion-ordered association lists
  (`dictGet`/`dictSet`/`dictErase` mirror `d[k]`, `d[k] = v`, `del d[k]`).
* Wall-clock instants (`int(time.time())`, `datetime.now().isoformat()`)
  become abstract `Nat` ticks supplied by the caller (injectable clock).
  The derived display strings `processing_time` ("H:MM:SS") and
  `estimated_time_remaining` ("Xm Ys") are modelled as the underlying
  elapsed-seconds numbers; no verified property depends on their rendering.
* The collaborators' outcomes (`FileProcessor.process_file`,
  `DeepSeekAPI.process_keyword_batch`) are inputs to the driver, one per
  call site, exactly as the driver consumes them.
* The driver's reads of `self.stop_flags[job_id]` are an oracle
  `stopF : Nat → Bool` consumed in program order; the checkpoint pair
  (lines 320-328 resp. 354-362: read / pause-wait / re-read) is merged
  into a single read, since only whether some read in the checkpoint
  returned true is observable (the loop breaks exactly then).
-/

namespace KeywordBatch

/-- Python dict lookup `m[k]` (as `Option`), over an insertion-ordered
association list. -/
def dictGet {α : Type} (m : List (String × α)) (k : String) : Option α :=
  match m with
  | [] => none
  | (k1, v) :: rest => if k1 = k then some v else dictGet rest k

/-- Python dict assignment `m[k] = v`: replace in place if the key exists,
else append (insertion order preserved). -/
def dictSet {α : Type} (m : List (String × α)) (k : String) (v : α) :
    List (String × α) :=
  match m with
  | [] => [(k, v)]
  | (k1, v1) :: rest =>
    if k1 = k then (k, v) :: rest else (k1, v1) :: dictSet rest k v

/-- Python guarded deletion `if k in m: del m[k]`. -/
def dictErase {α : Type} (m : List (String × α)) (k : String) :
    List (String × α) :=
  m.filter fun p => p.1 != k

/-- `JobStatus` enumeration (task_manager.py lines 25-32). -/
inductive JobStatus where
  | pending
  | running
  | paused
  | completed
  | failed
  | cancelled
deriving DecidableEq

/-- `JobProgress` dataclass (task_manager.py lines 35-50).  The three
time/display fields are modelled numerically (see the header comment);
`last_updated` is the tick of the last status query. -/
structure JobProgress where
  total_files : Nat := 0
  completed_files : Nat := 0
  failed_files : Nat := 0
  total_batches : Nat := 0
  completed_batches : Nat := 0
  failed_batches : Nat := 0
  total_keywords : Nat := 0
  processed_keywords : Nat := 0
  current_file : String := ""
  current_batch : Nat := 0
  processing_time : Nat := 0
  estimated_time_remaining : Nat := 0
  last_updated : Nat := 0
deriving DecidableEq

/-- One processed keyword record: a row dict that always carries the
`keyword` key (rows come from validated input files and the API client
only copies rows and adds keys); the remaining columns and any augmented
fields are abstracted to a key/value list. -/
structure KwRec where
  keyword : String
  fields : List (String × String) := []
deriving DecidableEq

/-- One element of `job.results`: either a processed record appended from a
successful API batch (a dict containing `keyword`), or one of the two
failure dicts built at task_manager.py lines 341-345 ('file'/'status'/'error')
and lines 379-384 ('file'/'batch'/'status'/'error'); neither failure dict
contains a `keyword` key. -/
inductive ResultEntry where
  | success (rec : KwRec)
  | fileFailure (file : String) (error : String)
  | batchFailure (file : String) (batch : Nat) (error : String)
deriving DecidableEq

/-- The opaque `config` dict: only `translate` (a bool) is consulted, and
only to be forwarded to the API collaborator, whose outcome is oracle data. -/
abbrev Config := List (String × Bool)

/-- `Job` dataclass (task_manager.py lines 53-76).  The empty-string
"unset" timestamps of the source become `none`. -/
structure Job where
  job_id : String
  input_folder : String
  output_folder : String
  status : JobStatus := JobStatus.pending
  progress : JobProgress := {}
  results : List ResultEntry := []
  error_message : String := ""
  created_at : Nat
  started_at : Option Nat := none
  completed_at : Option Nat := none
  config : Config := []
deriving DecidableEq

/-- The `TaskManager` fields (task_manager.py lines 82-87).
`active_threads` keeps only the keys of the thread-handle dict. -/
structure TMState where
  jobs : List (String × Job)
  active_threads : List String
  stop_flags : List (String × Bool)
  pause_flags : List (String × Bool)
deriving DecidableEq

/-- `TaskManager.__init__`: all maps empty. -/
def newTaskManager : TMState := ⟨[], [], [], []⟩

/-- Registration `self.active_threads[job_id] = thread` (keys only). -/
def threadInsert (l : List String) (x : String) : List String :=
  if x ∈ l then l else l ++ [x]

/-- Guarded `del self.active_threads[job_id]` (keys only). -/
def threadDelete (l : List String) (x : String) : List String :=
  l.filter fun y => y != x

/-- `TaskManager.create_job` (lines 91-120): the id is
`f"job_{int(time.time())}"` with `now` the current whole-second clock
reading; a fresh `Pending` job with zeroed progress, empty results and
control flags `{stop:false, pause:false}` is written into the maps. -/
def create_job (s : TMState) (now : Nat) (input_folder output_folder : String)
    (config : Config) : String × TMState :=
  let job_id := "job_" ++ toString now
  let job : Job :=
    { job_id := job_id, input_folder := input_folder,
      output_folder := output_folder, status := JobStatus.pending,
      progress := {}, results := [], error_message := "", created_at := now,
      started_at := none, completed_at := none, config := config }
  (job_id,
    { s with
      jobs := dictSet s.jobs job_id job,
      stop_flags := dictSet s.stop_flags job_id false,
      pause_flags := dictSet s.pause_flags job_id false })

/-- `TaskManager.start_job` (lines 122-155): only a known `Pending` job
starts; it becomes `Running`, `started_at` is stamped and the driver
handle is registered. -/
def start_job (s : TMState) (now : Nat) (job_id : String) : Bool × TMState :=
  match dictGet s.jobs job_id with
  | none => (false, s)
  | some job =>
    if job.status ≠ JobStatus.pending then (false, s)
    else
      let job1 := { job with status := JobStatus.running, started_at := some now }
      (true,
        { s with
          jobs := dictSet s.jobs job_id job1,
          active_threads := threadInsert s.active_threads job_id })

/-- `TaskManager.pause_job` (lines 157-180): only from `Running`. -/
def pause_job (s : TMState) (job_id : String) : Bool × TMState :=
  match dictGet s.jobs job_id with
  | none => (false, s)
  | some job =>
    if job.status ≠ JobStatus.running then (false, s)
    else
      (true,
        { s with
          jobs := dictSet s.jobs job_id { job with status := JobStatus.paused },
          pause_flags := dictSet s.pause_flags job_id true })

/-- `TaskManager.resume_job` (lines 182-204): only from `Paused`. -/
def resume_job (s : TMState) (job_id : String) : Bool × TMState :=
  match dictGet s.jobs job_id with
  | none => (false, s)
  | some job =>
    if job.status ≠ JobStatus.paused then (false, s)
    else
      (true,
        { s with
          jobs := dictSet s.jobs job_id { job with status := JobStatus.running },
          pause_flags := dictSet s.pause_flags job_id false })

/-- `TaskManager.stop_job` (lines 206-228): only from `Running` or
`Paused`; sets the status to `Cancelled` at once and raises the stop flag. -/
def stop_job (s : TMState) (job_id : String) : Bool × TMState :=
  match dictGet s.jobs job_id with
  | none => (false, s)
  | some job =>
    if job.status ≠ JobStatus.running ∧ job.status ≠ JobStatus.paused then
      (false, s)
    else
      (true,
        { s with
          jobs := dictSet s.jobs job_id { job with status := JobStatus.cancelled },
          stop_flags := dictSet s.stop_flags job_id true })

/-- The dictionary returned by `get_job_status` (lines 249-260). -/
structure StatusView where
  job_id : String
  status : JobStatus
  progress : JobProgress
  input_folder : String
  output_folder : String
  created_at : Nat
  started_at : Option Nat
  completed_at : Option Nat
  error_message : String
  config : Config
deriving DecidableEq

/-- The dictionary literal of lines 249-260. -/
def statusView (job : Job) : StatusView :=
  { job_id := job.job_id, status := job.status, progress := job.progress,
    input_folder := job.input_folder, output_folder := job.output_folder,
    created_at := job.created_at, started_at := job.started_at,
    completed_at := job.completed_at, error_message := job.error_message,
    config := job.config }

/-- `TaskManager.get_job_status` (lines 230-260): refreshes
`progress.last_updated` to the query time in place, then returns a copy of
the record. -/
def get_job_status (s : TMState) (now : Nat) (job_id : String) :
    Option StatusView × TMState :=
  match dictGet s.jobs job_id with
  | none => (none, s)
  | some job =>
    let job1 := { job with progress := { job.progress with last_updated := now } }
    (some (statusView job1), { s with jobs := dictSet s.jobs job_id job1 })

/-- `TaskManager.get_job_results` (lines 262-276): read-only. -/
def get_job_results (s : TMState) (job_id : String) :
    Option (List ResultEntry) × TMState :=
  match dictGet s.jobs job_id with
  | none => (none, s)
  | some job => (some job.results, s)

/-- `TaskManager.list_jobs` (lines 278-296): one summary per job,
in map order. -/
def list_jobs (s : TMState) : List (String × JobStatus × JobProgress) :=
  s.jobs.map fun p => (p.2.job_id, p.2.status, p.2.progress)

/-! ## The execution driver `_process_job` (lines 298-439)

The collaborator outcomes consumed by the driver are inputs:
`APIOutcome` is one `DeepSeekAPI.process_keyword_batch` return value,
`FileOutcome` one `FileProcessor.process_file` return value, and a
`FileInput` couples it with the path data the driver reads off the
`Path` object. -/

/-- Outcome of one `api_client.process_keyword_batch(batch, ...)` call
(line 369): an `APIResult` that is either success with the processed
records or failure with an error message. -/
inductive APIOutcome where
  | ok (data : List KwRec)
  | err (error_message : String)
deriving DecidableEq

/-- Outcome of one `file_processor.process_file(file_path)` call
(line 336): failure with `result.error_message`, or success with
`result.processed_rows` and the per-batch API outcomes for the returned
batch list (the driver consumes one API outcome per batch, in order). -/
inductive FileOutcome where
  | failure (error_message : String)
  | success (processed_rows : Nat) (batches : List APIOutcome)
deriving DecidableEq

/-- One enumerated input file: `str(file_path)`, `file_path.name`,
`file_path.stem`, and what processing it yields. -/
structure FileInput where
  path : String
  name : String
  stem : String
  res : FileOutcome
deriving DecidableEq

/-- Critical section at lines 330-331 resp. 364-365. -/
def setCurrentFile (job : Job) (n : String) : Job :=
  { job with progress := { job.progress with current_file := n } }

/-- Critical section at lines 364-365. -/
def setCurrentBatch (job : Job) (i : Nat) : Job :=
  { job with progress := { job.progress with current_batch := i } }

/-- Critical section at lines 339-345: a file whose processing failed. -/
def recordFileFailure (job : Job) (path error : String) : Job :=
  { job with
    progress := { job.progress with failed_files := job.progress.failed_files + 1 },
    results := job.results ++ [ResultEntry.fileFailure path error] }

/-- Critical section at lines 349-351: register the batch/keyword totals
of a successfully parsed file. -/
def addFileTotals (job : Job) (nBatches nRows : Nat) : Job :=
  { job with
    progress := { job.progress with
      total_batches := job.progress.total_batches + nBatches,
      total_keywords := job.progress.total_keywords + nRows } }

/-- Critical sections at lines 371-375 / 377-384: fold one API outcome
into the job. -/
def applyApi (path : String) (batchNo : Nat) (o : APIOutcome) (job : Job) : Job :=
  match o with
  | APIOutcome.ok data =>
    { job with
      progress := { job.progress with
        completed_batches := job.progress.completed_batches + 1,
        processed_keywords := job.progress.processed_keywords + data.length },
      results := job.results ++ data.map ResultEntry.success }
  | APIOutcome.err msg =>
    { job with
      progress := { job.progress with
        failed_batches := job.progress.failed_batches + 1 },
      results := job.results ++ [ResultEntry.batchFailure path batchNo msg] }

/-- The filter of line 389: the entries of `job.results` that are dicts
containing the `keyword` key, i.e. exactly the success records. -/
def keywordRecords (rs : List ResultEntry) : List KwRec :=
  rs.filterMap fun r =>
    match r with
    | ResultEntry.success rec => some rec
    | _ => none

/-- Critical section at lines 393-407: count the file completed and
recompute the elapsed/remaining times (numeric model of the display
strings; the source guards the estimate by `completed_files > 0`, which
always holds right after the increment). -/
def completeFile (now : Nat) (job : Job) : Job :=
  let p1 := { job.progress with completed_files := job.progress.completed_files + 1 }
  match job.started_at with
  | none => { job with progress := p1 }
  | some t0 =>
    let elapsed := now - t0
    let p2 := { p1 with processing_time := elapsed }
    let p3 :=
      if 0 < p2.completed_files then
        { p2 with estimated_time_remaining :=
            (elapsed / p2.completed_files) * (p2.total_files - p2.completed_files) }
      else p2
    { job with progress := p3 }

/-- Result of the inner batch loop (lines 353-384): the job as mutated,
the next stop-oracle index, whether a checkpoint observed stop (the loop
then broke), and the job snapshots after each critical section. -/
structure BatchRun where
  job : Job
  k : Nat
  obs : Bool
  trace : List Job
deriving DecidableEq

/-- The batch loop, lines 353-384.  `idx` is `batch_idx`; one oracle read
per checkpoint. -/
def batchLoop (stopF : Nat → Bool) (path : String) :
    List APIOutcome → Nat → Job → Nat → BatchRun
  | [], _, job, k => ⟨job, k, false, []⟩
  | b :: rest, idx, job, k =>
    if stopF k then ⟨job, k + 1, true, []⟩
    else
      let job1 := setCurrentBatch job (idx + 1)
      let job2 := applyApi path (idx + 1) b job1
      let r := batchLoop stopF path rest (idx + 1) job2 (k + 1)
      ⟨r.job, r.k, r.obs, job1 :: job2 :: r.trace⟩

/-- Result of the outer file loop (lines 319-407): additionally the
persistence calls made through `save_processed_data` (output filename and
records handed over, in call order). -/
structure FileRun where
  job : Job
  k : Nat
  obs : Bool
  trace : List Job
  saves : List (String × List KwRec)
deriving DecidableEq

/-- The file loop, lines 319-407.  A failed file appends its failure entry
and continues; a parsed file registers totals, runs the batch loop, then
(line 387, one oracle read) persists the accumulated keyword-carrying
results under `f"processed_{file_path.stem}.xlsx"` unless stop is set, and
finally counts the file completed.  Note the completion count at line 394
runs even when the batch loop broke on stop. -/
def fileLoop (stopF : Nat → Bool) (now : Nat) :
    List FileInput → Job → Nat → FileRun
  | [], job, k => ⟨job, k, false, [], []⟩
  | f :: rest, job, k =>
    if stopF k then ⟨job, k + 1, true, [], []⟩
    else
      let job1 := setCurrentFile job f.name
      match f.res with
      | FileOutcome.failure msg =>
        let job2 := recordFileFailure job1 f.path msg
        let r := fileLoop stopF now rest job2 (k + 1)
        ⟨r.job, r.k, r.obs, job1 :: job2 :: r.trace, r.saves⟩
      | FileOutcome.success rows batches =>
        let job2 := addFileTotals job1 batches.length rows
        let rb := batchLoop stopF f.path batches 0 job2 (k + 1)
        let saves0 :=
          if stopF rb.k then []
          else [("processed_" ++ f.stem ++ ".xlsx", keywordRecords rb.job.results)]
        let job3 := completeFile now rb.job
        let r := fileLoop stopF now rest job3 (rb.k + 1)
        ⟨r.job, r.k, rb.obs || r.obs, job1 :: job2 :: (rb.trace ++ job3 :: r.trace),
          saves0 ++ r.saves⟩

/-- Critical section at lines 410-419: the finalization step.
`stopSet` is the read of `self.stop_flags[job_id]` at line 411. -/
def finalizeJob (stopSet : Bool) (nFiles : Nat) (now : Nat) (job : Job) : Job :=
  if stopSet then
    { job with status := JobStatus.cancelled, completed_at := some now }
  else if job.progress.failed_files = nFiles then
    { job with
      status := JobStatus.failed,
      error_message := "All files failed to process",
      completed_at := some now }
  else
    { job with status := JobStatus.completed, completed_at := some now }

/-- Result of the whole try block given a successful scan: final job,
fileLoop's final oracle index `k` (the finalization step reads `stopF k`),
whether any checkpoint observed stop, the snapshots after every critical
section (the last one is the finalized job), and the persistence calls. -/
structure TryRun where
  job : Job
  k : Nat
  obs : Bool
  trace : List Job
  saves : List (String × List KwRec)
deriving DecidableEq

/-- The try block of `_process_job` on a successful scan (lines 306-419):
set `total_files` (lines 315-316), run the file loop, finalize. -/
def runTry (stopF : Nat → Bool) (now : Nat) (files : List FileInput)
    (job0 : Job) : TryRun :=
  let jobA := { job0 with progress := { job0.progress with total_files := files.length } }
  let r := fileLoop stopF now files jobA 0
  let jobZ := finalizeJob (stopF r.k) files.length now r.job
  ⟨jobZ, r.k, r.obs, jobA :: (r.trace ++ [jobZ]), r.saves⟩

/-- The except/finally tail of `_process_job` (lines 423-439), applied to
the registry state the try block left behind.  On an exception (`.error
msg`, where `msg` is `str(e)`) the job is driven to `Failed` with the
message and a `completed_at` stamp; on every path the thread handle and
both control flags of this job are removed from the tracking maps.  The
model is total: no exception escapes. -/
def driverExit (s : TMState) (now : Nat) (job_id : String)
    (outcome : Except String Unit) : TMState :=
  let s1 :=
    match outcome with
    | Except.ok _ => s
    | Except.error msg =>
      match dictGet s.jobs job_id with
      | none => s
      | some job =>
        { s with
          jobs := dictSet s.jobs job_id
            { job with
              status := JobStatus.failed,
              error_message := msg,
              completed_at := some now } }
  { s1 with
    active_threads := threadDelete s1.active_threads job_id,
    stop_flags := dictErase s1.stop_flags job_id,
    pause_flags := dictErase s1.pause_flags job_id }

/-- `TaskManager._process_job` end to end on the registry state:
`scan` is the `scan_excel_files` outcome (`.error` = the raised
`FileNotFoundError` rendered by `str(e)`); a missing job id would raise a
`KeyError` at line 306 (unreachable: jobs are never deleted).  Returns the
new registry state and the persistence calls made. -/
def process_job (s : TMState) (now : Nat) (job_id : String)
    (stopF : Nat → Bool) (scan : Except String (List FileInput)) :
    TMState × List (String × List KwRec) :=
  match dictGet s.jobs job_id with
  | none => (driverExit s now job_id (Except.error job_id), [])
  | some job =>
    match scan with
    | Except.error msg => (driverExit s now job_id (Except.error msg), [])
    | Except.ok files =>
      let r := runTry stopF now files job
      (driverExit { s with jobs := dictSet s.jobs job_id r.job } now job_id
        (Except.ok ()), r.saves)

/-! ## Derived notions used in the statements -/

/-- The progress invariant of spec section 3: completed+failed never
exceeds total, at the file granularity and at the batch granularity. -/
def progressInv (p : JobProgress) : Prop :=
  p.completed_files + p.failed_files ≤ p.total_files ∧
  p.completed_batches + p.failed_batches ≤ p.total_batches

/-- Pointwise order on the eight progress counters (the monotonicity
relation of spec section 3; the current-marker and derived-time fields are
not counters). -/
def counterLE (p q : JobProgress) : Prop :=
  p.total_files ≤ q.total_files ∧ p.completed_files ≤ q.completed_files ∧
  p.failed_files ≤ q.failed_files ∧ p.total_batches ≤ q.total_batches ∧
  p.completed_batches ≤ q.completed_batches ∧
  p.failed_batches ≤ q.failed_batches ∧
  p.total_keywords ≤ q.total_keywords ∧
  p.processed_keywords ≤ q.processed_keywords

/-- Failure entries of `results` (the dicts with `status: failed`). -/
def isFailureEntry : ResultEntry → Bool
  | ResultEntry.success _ => false
  | ResultEntry.fileFailure _ _ => true
  | ResultEntry.batchFailure _ _ _ => true

/-- Whether a file's processing outcome is a parse/validation failure. -/
def isFailureFile (f : FileInput) : Bool :=
  match f.res with
  | FileOutcome.failure _ => true
  | FileOutcome.success _ _ => false

/-- All API calls of a batch list succeed. -/
def allOk (bs : List APIOutcome) : Bool :=
  bs.all fun b =>
    match b with
    | APIOutcome.ok _ => true
    | APIOutcome.err _ => false

/-- The result entries one batch list contributes (in order), starting at
batch index `idx`. -/
def batchEntries (path : String) : List APIOutcome → Nat → List ResultEntry
  | [], _ => []
  | APIOutcome.ok data :: rest, idx =>
    data.map ResultEntry.success ++ batchEntries path rest (idx + 1)
  | APIOutcome.err m :: rest, idx =>
    ResultEntry.batchFailure path (idx + 1) m :: batchEntries path rest (idx + 1)

/-- The result entries one file contributes. -/
def fileEntries (f : FileInput) : List ResultEntry :=
  match f.res with
  | FileOutcome.failure m => [ResultEntry.fileFailure f.path m]
  | FileOutcome.success _ bs => batchEntries f.path bs 0

/-- A stop-flag oracle is monotone: during a normal run the flag is set
by `stop_job` and never cleared (only a `create_job` call that collides on
the same id could write it back to false). -/
def MonoOracle (stopF : Nat → Bool) : Prop :=
  ∀ i j : Nat, i ≤ j → stopF i = true → stopF j = true

/-! ## Map lemmas -/

theorem dictGet_dictSet_self {α : Type} (m : List (String × α)) (k : String)
    (v : α) : dictGet (dictSet m k v) k = some v := by
  induction m with
  | nil => simp [dictSet, dictGet]
  | cons p rest ih =>
    obtain ⟨k1, v1⟩ := p
    by_cases h : k1 = k
    · simp [dictSet, dictGet, h]
    · simp [dictSet, dictGet, h, ih]

theorem dictGet_dictErase_self {α : Type} (m : List (String × α)) (k : String) :
    dictGet (dictErase m k) k = none := by
  induction m with
  | nil => rfl
  | cons p rest ih =>
    obtain ⟨k1, v1⟩ := p
    by_cases h : k1 = k
    · simpa [dictErase, List.filter_cons, h] using ih
    · simpa [dictErase, List.filter_cons, h, dictGet] using ih

theorem not_mem_threadDelete (l : List String) (x : String) :
    x ∉ threadDelete l x := by
  simp [threadDelete, List.mem_filter]

/-- `counterLE` lifted to job snapshots. -/
def jobCounterLE (a b : Job) : Prop := counterLE a.progress b.progress

/-! ## Batch-loop lemmas -/

theorem counterLE_refl (p : JobProgress) : counterLE p p := by
  simp [counterLE]

theorem batchLoop_preserves (stopF : Nat → Bool) (path : String) :
    ∀ (bs : List APIOutcome) (idx : Nat) (job : Job) (k : Nat),
      (batchLoop stopF path bs idx job k).job.progress.total_files =
        job.progress.total_files ∧
      (batchLoop stopF path bs idx job k).job.progress.completed_files =
        job.progress.completed_files ∧
      (batchLoop stopF path bs idx job k).job.progress.failed_files =
        job.progress.failed_files ∧
      (batchLoop stopF path bs idx job k).job.progress.total_batches =
        job.progress.total_batches ∧
      (batchLoop stopF path bs idx job k).job.progress.total_keywords =
        job.progress.total_keywords ∧
      (batchLoop stopF path bs idx job k).job.status = job.status ∧
      (batchLoop stopF path bs idx job k).job.started_at = job.started_at := by
  intro bs
  induction bs with
  | nil => intro idx job k; simp [batchLoop]
  | cons b rest ih =>
    intro idx job k
    by_cases h : stopF k = true
    · simp [batchLoop, h]
    · cases b with
      | ok data =>
        simpa [batchLoop, h, applyApi, setCurrentBatch] using
          ih (idx + 1)
            (applyApi path (idx + 1) (APIOutcome.ok data)
              (setCurrentBatch job (idx + 1))) (k + 1)
      | err m =>
        simpa [batchLoop, h, applyApi, setCurrentBatch] using
          ih (idx + 1)
            (applyApi path (idx + 1) (APIOutcome.err m)
              (setCurrentBatch job (idx + 1))) (k + 1)

theorem batchLoop_batch_bound (stopF : Nat → Bool) (path : String) :
    ∀ (bs : List APIOutcome) (idx : Nat) (job : Job) (k : Nat),
      (batchLoop stopF path bs idx job k).job.progress.completed_batches +
        (batchLoop stopF path bs idx job k).job.progress.failed_batches ≤
        job.progress.completed_batches + job.progress.failed_batches +
          bs.length := by
  intro bs
  induction bs with
  | nil => intro idx job k; simp [batchLoop]
  | cons b rest ih =>
    intro idx job k
    by_cases h : stopF k = true
    · simp [batchLoop, h]
    · cases b with
      | ok data =>
        have hrec := ih (idx + 1)
          (applyApi path (idx + 1) (APIOutcome.ok data)
            (setCurrentBatch job (idx + 1))) (k + 1)
        simp only [batchLoop, h, if_false, Bool.false_eq_true]
        simp [applyApi, setCurrentBatch] at hrec ⊢
        omega
      | err m =>
        have hrec := ih (idx + 1)
          (applyApi path (idx + 1) (APIOutcome.err m)
            (setCurrentBatch job (idx + 1))) (k + 1)
        simp only [batchLoop, h, if_false, Bool.false_eq_true]
        simp [applyApi, setCurrentBatch] at hrec ⊢
        omega

theorem batchLoop_chain (stopF : Nat → Bool) (path : String) :
    ∀ (bs : List APIOutcome) (idx : Nat) (job : Job) (k : Nat),
      List.Chain' jobCounterLE
        (job :: (batchLoop stopF path bs idx job k).trace) ∧
      (job :: (batchLoop stopF path bs idx job k).trace).getLast? =
        some (batchLoop stopF path bs idx job k).job := by
  intro bs
  induction bs with
  | nil => intro idx job k; simp [batchLoop]
  | cons b rest ih =>
    intro idx job k
    by_cases h : stopF k = true
    · simp [batchLoop, h]
    · have hrec := ih (idx + 1)
        (applyApi path (idx + 1) b (setCurrentBatch job (idx + 1))) (k + 1)
      have h1 : jobCounterLE job (setCurrentBatch job (idx + 1)) := by
        simp [setCurrentBatch, jobCounterLE, counterLE]
      have h2 : jobCounterLE (setCurrentBatch job (idx + 1))
          (applyApi path (idx + 1) b (setCurrentBatch job (idx + 1))) := by
        cases b <;> simp [applyApi, setCurrentBatch, jobCounterLE, counterLE]
      have etr : (batchLoop stopF path (b :: rest) idx job k).trace =
          setCurrentBatch job (idx + 1) ::
            applyApi path (idx + 1) b (setCurrentBatch job (idx + 1)) ::
            (batchLoop stopF path rest (idx + 1)
              (applyApi path (idx + 1) b (setCurrentBatch job (idx + 1)))
              (k + 1)).trace := by
        simp [batchLoop, h]
      have ejob : (batchLoop stopF path (b :: rest) idx job k).job =
          (batchLoop stopF path rest (idx + 1)
            (applyApi path (idx + 1) b (setCurrentBatch job (idx + 1)))
            (k + 1)).job := by
        simp [batchLoop, h]
      rw [etr, ejob]
      constructor
      · exact List.chain'_cons.mpr ⟨h1, List.chain'_cons.mpr ⟨h2, hrec.1⟩⟩
      · rw [List.getLast?_cons_cons, List.getLast?_cons_cons]
        exact hrec.2

theorem batchLoop_trace_inv (stopF : Nat → Bool) (path : String) :
    ∀ (bs : List APIOutcome) (idx : Nat) (job : Job) (k : Nat),
      progressInv job.progress →
      job.progress.completed_batches + job.progress.failed_batches +
          bs.length ≤ job.progress.total_batches →
      ∀ x ∈ (batchLoop stopF path bs idx job k).trace,
        progressInv x.progress := by
  intro bs
  induction bs with
  | nil => intro idx job k _ _ x hx; simp [batchLoop] at hx
  | cons b rest ih =>
    intro idx job k hinv hslack x hx
    by_cases h : stopF k = true
    · simp [batchLoop, h] at hx
    · simp only [batchLoop, h, if_false, Bool.false_eq_true, List.mem_cons] at hx
      have hinv1 : progressInv (setCurrentBatch job (idx + 1)).progress := by
        simpa [setCurrentBatch, progressInv] using hinv
      have hinv2 : progressInv
          (applyApi path (idx + 1) b (setCurrentBatch job (idx + 1))).progress := by
        cases b <;> simp [applyApi, setCurrentBatch, progressInv] at hinv ⊢ <;>
          simp [List.length_cons] at hslack <;> omega
      have hslack2 :
          (applyApi path (idx + 1) b (setCurrentBatch job (idx + 1))).progress.completed_batches +
            (applyApi path (idx + 1) b (setCurrentBatch job (idx + 1))).progress.failed_batches +
            rest.length ≤
          (applyApi path (idx + 1) b (setCurrentBatch job (idx + 1))).progress.total_batches := by
        cases b <;> simp [applyApi, setCurrentBatch] <;>
          simp [List.length_cons] at hslack <;> omega
      rcases hx with hx | hx | hx
      · exact hx ▸ hinv1
      · exact hx ▸ hinv2
      · exact ih (idx + 1) _ (k + 1) hinv2 hslack2 x hx

theorem batchLoop_results_extension (stopF : Nat → Bool) (path : String) :
    ∀ (bs : List APIOutcome) (idx : Nat) (job : Job) (k : Nat),
      ∃ d, (batchLoop stopF path bs idx job k).job.results =
        job.results ++ d := by
  intro bs
  induction bs with
  | nil => intro idx job k; exact ⟨[], by simp [batchLoop]⟩
  | cons b rest ih =>
    intro idx job k
    by_cases h : stopF k = true
    · exact ⟨[], by simp [batchLoop, h]⟩
    · obtain ⟨d, hd⟩ := ih (idx + 1)
        (applyApi path (idx + 1) b (setCurrentBatch job (idx + 1))) (k + 1)
      have ejob : (batchLoop stopF path (b :: rest) idx job k).job =
          (batchLoop stopF path rest (idx + 1)
            (applyApi path (idx + 1) b (setCurrentBatch job (idx + 1)))
            (k + 1)).job := by
        simp [batchLoop, h]
      cases b with
      | ok data =>
        refine ⟨data.map ResultEntry.success ++ d, ?_⟩
        rw [ejob, hd]
        simp [applyApi, setCurrentBatch]
      | err m =>
        refine ⟨ResultEntry.batchFailure path (idx + 1) m :: d, ?_⟩
        rw [ejob, hd]
        simp [applyApi, setCurrentBatch]

theorem batchLoop_k_obs (stopF : Nat → Bool) (path : String) :
    ∀ (bs : List APIOutcome) (idx : Nat) (job : Job) (k : Nat),
      k ≤ (batchLoop stopF path bs idx job k).k ∧
      ((batchLoop stopF path bs idx job k).obs = true →
        ∃ i, k ≤ i ∧ i < (batchLoop stopF path bs idx job k).k ∧
          stopF i = true) := by
  intro bs
  induction bs with
  | nil => intro idx job k; simp [batchLoop]
  | cons b rest ih =>
    intro idx job k
    by_cases h : stopF k = true
    · have ek : (batchLoop stopF path (b :: rest) idx job k).k = k + 1 := by
        simp [batchLoop, h]
      refine ⟨by omega, fun _ => ⟨k, le_refl k, by omega, h⟩⟩
    · have hrec := ih (idx + 1)
        (applyApi path (idx + 1) b (setCurrentBatch job (idx + 1))) (k + 1)
      have ek : (batchLoop stopF path (b :: rest) idx job k).k =
          (batchLoop stopF path rest (idx + 1)
            (applyApi path (idx + 1) b (setCurrentBatch job (idx + 1)))
            (k + 1)).k := by
        simp [batchLoop, h]
      have eobs : (batchLoop stopF path (b :: rest) idx job k).obs =
          (batchLoop stopF path rest (idx + 1)
            (applyApi path (idx + 1) b (setCurrentBatch job (idx + 1)))
            (k + 1)).obs := by
        simp [batchLoop, h]
      constructor
      · rw [ek]
        omega
      · rw [eobs, ek]
        intro hobs
        obtain ⟨i, hi1, hi2, hi3⟩ := hrec.2 hobs
        exact ⟨i, by omega, hi2, hi3⟩

theorem batchLoop_nostop (stopF : Nat → Bool) (path : String)
    (hs : ∀ i, stopF i = false) :
    ∀ (bs : List APIOutcome) (idx : Nat) (job : Job) (k : Nat),
      (batchLoop stopF path bs idx job k).job.results =
        job.results ++ batchEntries path bs idx ∧
      (batchLoop stopF path bs idx job k).k = k + bs.length ∧
      (batchLoop stopF path bs idx job k).obs = false := by
  intro bs
  induction bs with
  | nil => intro idx job k; simp [batchLoop, batchEntries]
  | cons b rest ih =>
    intro idx job k
    have hrec := ih (idx + 1)
      (applyApi path (idx + 1) b (setCurrentBatch job (idx + 1))) (k + 1)
    have h : ¬stopF k = true := by simp [hs k]
    have ejob : (batchLoop stopF path (b :: rest) idx job k).job =
        (batchLoop stopF path rest (idx + 1)
          (applyApi path (idx + 1) b (setCurrentBatch job (idx + 1)))
          (k + 1)).job := by
      simp [batchLoop, h]
    have ek : (batchLoop stopF path (b :: rest) idx job k).k =
        (batchLoop stopF path rest (idx + 1)
          (applyApi path (idx + 1) b (setCurrentBatch job (idx + 1)))
          (k + 1)).k := by
      simp [batchLoop, h]
    have eobs : (batchLoop stopF path (b :: rest) idx job k).obs =
        (batchLoop stopF path rest (idx + 1)
          (applyApi path (idx + 1) b (setCurrentBatch job (idx + 1)))
          (k + 1)).obs := by
      simp [batchLoop, h]
    refine ⟨?_, ?_, ?_⟩
    · rw [ejob, hrec.1]
      cases b <;> simp [applyApi, setCurrentBatch, batchEntries]
    · rw [ek, hrec.2.1]
      simp [List.length_cons]
      omega
    · rw [eobs]
      exact hrec.2.2

theorem batchEntries_allOk_no_failures (path : String) :
    ∀ (bs : List APIOutcome) (idx : Nat), allOk bs = true →
      (batchEntries path bs idx).filter isFailureEntry = [] := by
  intro bs
  induction bs with
  | nil => intro idx _; simp [batchEntries]
  | cons b rest ih =>
    intro idx hok
    cases b with
    | ok data =>
      have hok2 : allOk rest = true := by simpa [allOk] using hok
      simp [batchEntries, List.filter_append, ih (idx + 1) hok2,
        List.filter_map, isFailureEntry, Function.comp_def]
    | err m => simp [allOk] at hok

/-! ## File-loop lemmas -/

theorem completeFile_progress (now : Nat) (job : Job) :
    (completeFile now job).progress.total_files = job.progress.total_files ∧
    (completeFile now job).progress.completed_files =
      job.progress.completed_files + 1 ∧
    (completeFile now job).progress.failed_files =
      job.progress.failed_files ∧
    (completeFile now job).progress.total_batches =
      job.progress.total_batches ∧
    (completeFile now job).progress.completed_batches =
      job.progress.completed_batches ∧
    (completeFile now job).progress.failed_batches =
      job.progress.failed_batches ∧
    (completeFile now job).progress.total_keywords =
      job.progress.total_keywords ∧
    (completeFile now job).progress.processed_keywords =
      job.progress.processed_keywords ∧
    (completeFile now job).results = job.results ∧
    (completeFile now job).status = job.status ∧
    (completeFile now job).started_at = job.started_at := by
  unfold completeFile
  cases hst : job.started_at with
  | none => simp
  | some t0 => split <;> simp

theorem jobCounterLE_completeFile (now : Nat) (job : Job) :
    jobCounterLE job (completeFile now job) := by
  obtain ⟨e1, e2, e3, e4, e5, e6, e7, e8, _⟩ := completeFile_progress now job
  simp [jobCounterLE, counterLE, e1, e2, e3, e4, e5, e6, e7, e8]

theorem finalizeJob_fields (stopSet : Bool) (nFiles now : Nat) (job : Job) :
    (finalizeJob stopSet nFiles now job).progress = job.progress ∧
    (finalizeJob stopSet nFiles now job).results = job.results ∧
    (finalizeJob stopSet nFiles now job).completed_at = some now := by
  unfold finalizeJob
  split
  · exact ⟨rfl, rfl, rfl⟩
  · split
    · exact ⟨rfl, rfl, rfl⟩
    · exact ⟨rfl, rfl, rfl⟩

theorem finalizeJob_status (stopSet : Bool) (nFiles now : Nat) (job : Job) :
    (finalizeJob stopSet nFiles now job).status =
      (if stopSet then JobStatus.cancelled
       else if job.progress.failed_files = nFiles then JobStatus.failed
       else JobStatus.completed) := by
  by_cases h1 : stopSet = true
  · simp [finalizeJob, h1]
  · by_cases h2 : job.progress.failed_files = nFiles
    · simp [finalizeJob, h1, h2]
    · simp [finalizeJob, h1, h2]

theorem fileLoop_chain (stopF : Nat → Bool) (now : Nat) :
    ∀ (files : List FileInput) (job : Job) (k : Nat),
      List.Chain' jobCounterLE
        (job :: (fileLoop stopF now files job k).trace) ∧
      (job :: (fileLoop stopF now files job k).trace).getLast? =
        some (fileLoop stopF now files job k).job := by
  intro files
  induction files with
  | nil => intro job k; simp [fileLoop]
  | cons f rest ih =>
    intro job k
    by_cases h : stopF k = true
    · simp [fileLoop, h]
    · have h1 : jobCounterLE job (setCurrentFile job f.name) := by
        simp [setCurrentFile, jobCounterLE, counterLE]
      cases hf : f.res with
      | failure msg =>
        have hrec := ih
          (recordFileFailure (setCurrentFile job f.name) f.path msg) (k + 1)
        have h2 : jobCounterLE (setCurrentFile job f.name)
            (recordFileFailure (setCurrentFile job f.name) f.path msg) := by
          simp [recordFileFailure, setCurrentFile, jobCounterLE, counterLE]
        have etr : (fileLoop stopF now (f :: rest) job k).trace =
            setCurrentFile job f.name ::
              recordFileFailure (setCurrentFile job f.name) f.path msg ::
              (fileLoop stopF now rest
                (recordFileFailure (setCurrentFile job f.name) f.path msg)
                (k + 1)).trace := by
          simp [fileLoop, h, hf]
        have ejob : (fileLoop stopF now (f :: rest) job k).job =
            (fileLoop stopF now rest
              (recordFileFailure (setCurrentFile job f.name) f.path msg)
              (k + 1)).job := by
          simp [fileLoop, h, hf]
        rw [etr, ejob]
        constructor
        · exact List.chain'_cons.mpr ⟨h1, List.chain'_cons.mpr ⟨h2, hrec.1⟩⟩
        · rw [List.getLast?_cons_cons, List.getLast?_cons_cons]
          exact hrec.2
      | success rows batches =>
        set job1 := setCurrentFile job f.name with hj1
        set job2 := addFileTotals job1 batches.length rows with hj2
        set rb := batchLoop stopF f.path batches 0 job2 (k + 1) with hrb
        set job3 := completeFile now rb.job with hj3
        set rc := fileLoop stopF now rest job3 (rb.k + 1) with hrc
        have h2 : jobCounterLE job1 job2 := by
          simp [hj2, addFileTotals, jobCounterLE, counterLE]
        have hb := batchLoop_chain stopF f.path batches 0 job2 (k + 1)
        have hrec := ih job3 (rb.k + 1)
        rw [← hrb] at hb
        rw [← hrc] at hrec
        have etr : (fileLoop stopF now (f :: rest) job k).trace =
            job1 :: job2 :: (rb.trace ++ job3 :: rc.trace) := by
          simp [fileLoop, h, hf, hj1, hj2, hrb, hj3, hrc]
        have ejob : (fileLoop stopF now (f :: rest) job k).job = rc.job := by
          simp [fileLoop, h, hf, hj1, hj2, hrb, hj3, hrc]
        rw [etr, ejob]
        have hgroup : job :: job1 :: job2 :: (rb.trace ++ job3 :: rc.trace) =
            (job :: job1 :: job2 :: rb.trace) ++ (job3 :: rc.trace) := by
          simp
        rw [hgroup]
        constructor
        · refine List.chain'_append.mpr ⟨?_, hrec.1, ?_⟩
          · exact List.chain'_cons.mpr ⟨h1, List.chain'_cons.mpr ⟨h2, hb.1⟩⟩
          · intro x hx y hy
            rw [List.getLast?_cons_cons, List.getLast?_cons_cons, hb.2] at hx
            simp only [Option.mem_def, Option.some.injEq] at hx
            simp only [List.head?_cons, Option.mem_def, Option.some.injEq] at hy
            rw [← hx, ← hy]
            exact jobCounterLE_completeFile now _
        · rw [List.getLast?_append_of_ne_nil _ (by simp)]
          exact hrec.2

theorem fileLoop_k_obs (stopF : Nat → Bool) (now : Nat) :
    ∀ (files : List FileInput) (job : Job) (k : Nat),
      k ≤ (fileLoop stopF now files job k).k ∧
      ((fileLoop stopF now files job k).obs = true →
        ∃ i, k ≤ i ∧ i < (fileLoop stopF now files job k).k ∧
          stopF i = true) := by
  intro files
  induction files with
  | nil => intro job k; simp [fileLoop]
  | cons f rest ih =>
    intro job k
    by_cases h : stopF k = true
    · have ek : (fileLoop stopF now (f :: rest) job k).k = k + 1 := by
        simp [fileLoop, h]
      refine ⟨by omega, fun _ => ⟨k, le_refl k, by omega, h⟩⟩
    · cases hf : f.res with
      | failure msg =>
        have hrec := ih
          (recordFileFailure (setCurrentFile job f.name) f.path msg) (k + 1)
        have ek : (fileLoop stopF now (f :: rest) job k).k =
            (fileLoop stopF now rest
              (recordFileFailure (setCurrentFile job f.name) f.path msg)
              (k + 1)).k := by
          simp [fileLoop, h, hf]
        have eobs : (fileLoop stopF now (f :: rest) job k).obs =
            (fileLoop stopF now rest
              (recordFileFailure (setCurrentFile job f.name) f.path msg)
              (k + 1)).obs := by
          simp [fileLoop, h, hf]
        constructor
        · rw [ek]
          omega
        · rw [eobs, ek]
          intro hobs
          obtain ⟨i, hi1, hi2, hi3⟩ := hrec.2 hobs
          exact ⟨i, by omega, hi2, hi3⟩
      | success rows batches =>
        set job2 := addFileTotals (setCurrentFile job f.name) batches.length
          rows with hj2
        set rb := batchLoop stopF f.path batches 0 job2 (k + 1) with hrb
        set job3 := completeFile now rb.job with hj3
        have hbk := batchLoop_k_obs stopF f.path batches 0 job2 (k + 1)
        rw [← hrb] at hbk
        have hrec := ih job3 (rb.k + 1)
        have ek : (fileLoop stopF now (f :: rest) job k).k =
            (fileLoop stopF now rest job3 (rb.k + 1)).k := by
          simp [fileLoop, h, hf, hj2, hrb, hj3]
        have eobs : (fileLoop stopF now (f :: rest) job k).obs =
            (rb.obs || (fileLoop stopF now rest job3 (rb.k + 1)).obs) := by
          simp [fileLoop, h, hf, hj2, hrb, hj3]
        constructor
        · rw [ek]
          omega
        · rw [eobs, ek]
          intro hobs
          simp only [Bool.or_eq_true] at hobs
          rcases hobs with hb | hb
          · obtain ⟨i, hi1, hi2, hi3⟩ := hbk.2 hb
            exact ⟨i, by omega, by omega, hi3⟩
          · obtain ⟨i, hi1, hi2, hi3⟩ := hrec.2 hb
            exact ⟨i, by omega, hi2, hi3⟩

theorem fileLoop_nostop (stopF : Nat → Bool) (now : Nat)
    (hs : ∀ i, stopF i = false) :
    ∀ (files : List FileInput) (job : Job) (k : Nat),
      (fileLoop stopF now files job k).job.results =
        job.results ++ (files.map fileEntries).flatten ∧
      (fileLoop stopF now files job k).job.progress.failed_files =
        job.progress.failed_files + (files.filter isFailureFile).length ∧
      (fileLoop stopF now files job k).job.progress.completed_files =
        job.progress.completed_files +
          (files.filter (fun g => !isFailureFile g)).length ∧
      (fileLoop stopF now files job k).obs = false ∧
      (fileLoop stopF now files job k).saves.map Prod.fst =
        (files.filter (fun g => !isFailureFile g)).map
          (fun g => "processed_" ++ g.stem ++ ".xlsx") := by
  intro files
  induction files with
  | nil => intro job k; simp [fileLoop]
  | cons f rest ih =>
    intro job k
    have h : ¬stopF k = true := by simp [hs k]
    cases hf : f.res with
    | failure msg =>
      have hrec := ih
        (recordFileFailure (setCurrentFile job f.name) f.path msg) (k + 1)
      have hff : isFailureFile f = true := by simp [isFailureFile, hf]
      have ejob : (fileLoop stopF now (f :: rest) job k).job =
          (fileLoop stopF now rest
            (recordFileFailure (setCurrentFile job f.name) f.path msg)
            (k + 1)).job := by
        simp [fileLoop, h, hf]
      have eobs : (fileLoop stopF now (f :: rest) job k).obs =
          (fileLoop stopF now rest
            (recordFileFailure (setCurrentFile job f.name) f.path msg)
            (k + 1)).obs := by
        simp [fileLoop, h, hf]
      have esv : (fileLoop stopF now (f :: rest) job k).saves =
          (fileLoop stopF now rest
            (recordFileFailure (setCurrentFile job f.name) f.path msg)
            (k + 1)).saves := by
        simp [fileLoop, h, hf]
      refine ⟨?_, ?_, ?_, ?_, ?_⟩
      · rw [ejob, hrec.1]
        simp [recordFileFailure, setCurrentFile, fileEntries, hf]
      · rw [ejob, hrec.2.1]
        simp [recordFileFailure, setCurrentFile, hff]
        omega
      · rw [ejob, hrec.2.2.1]
        simp [recordFileFailure, setCurrentFile, hff]
      · rw [eobs]
        exact hrec.2.2.2.1
      · rw [esv, hrec.2.2.2.2]
        simp [hff]
    | success rows batches =>
      set job2 := addFileTotals (setCurrentFile job f.name) batches.length
        rows with hj2
      set rb := batchLoop stopF f.path batches 0 job2 (k + 1) with hrb
      set job3 := completeFile now rb.job with hj3
      have hbn := batchLoop_nostop stopF f.path hs batches 0 job2 (k + 1)
      rw [← hrb] at hbn
      have hbp := batchLoop_preserves stopF f.path batches 0 job2 (k + 1)
      rw [← hrb] at hbp
      have hcp := completeFile_progress now rb.job
      rw [← hj3] at hcp
      have hrec := ih job3 (rb.k + 1)
      have hff : isFailureFile f = false := by simp [isFailureFile, hf]
      have ejob : (fileLoop stopF now (f :: rest) job k).job =
          (fileLoop stopF now rest job3 (rb.k + 1)).job := by
        simp [fileLoop, h, hf, hj2, hrb, hj3]
      have eobs : (fileLoop stopF now (f :: rest) job k).obs =
          (rb.obs || (fileLoop stopF now rest job3 (rb.k + 1)).obs) := by
        simp [fileLoop, h, hf, hj2, hrb, hj3]
      have esv : (fileLoop stopF now (f :: rest) job k).saves =
          ("processed_" ++ f.stem ++ ".xlsx", keywordRecords rb.job.results) ::
            (fileLoop stopF now rest job3 (rb.k + 1)).saves := by
        simp [fileLoop, h, hf, hj2, hrb, hj3, hs]
      refine ⟨?_, ?_, ?_, ?_, ?_⟩
      · rw [ejob, hrec.1, hcp.2.2.2.2.2.2.2.2.1, hbn.1]
        simp [hj2, addFileTotals, setCurrentFile, fileEntries, hf]
      · rw [ejob, hrec.2.1, hcp.2.2.1, hbp.2.2.1]
        simp [hj2, addFileTotals, setCurrentFile, hff]
      · rw [ejob, hrec.2.2.1, hcp.2.1, hbp.2.1]
        simp [hj2, addFileTotals, setCurrentFile, hff]
        omega
      · rw [eobs, hbn.2.2]
        simpa using hrec.2.2.2.1
      · rw [esv]
        simp [hff, hrec.2.2.2.2]

theorem fileLoop_trace_inv (stopF : Nat → Bool) (now : Nat) :
    ∀ (files : List FileInput) (job : Job) (k : Nat),
      progressInv job.progress →
      job.progress.completed_files + job.progress.failed_files +
          files.length ≤ job.progress.total_files →
      (∀ x ∈ (fileLoop stopF now files job k).trace,
        progressInv x.progress) ∧
      progressInv (fileLoop stopF now files job k).job.progress ∧
      (fileLoop stopF now files job k).job.progress.total_files =
        job.progress.total_files ∧
      (fileLoop stopF now files job k).job.progress.completed_files +
          (fileLoop stopF now files job k).job.progress.failed_files ≤
        job.progress.completed_files + job.progress.failed_files +
          files.length := by
  intro files
  induction files with
  | nil =>
    intro job k hinv hslack
    have ej : (fileLoop stopF now ([] : List FileInput) job k).job = job := by
      simp [fileLoop]
    refine ⟨?_, ?_, ?_, ?_⟩
    · intro x hx
      simp [fileLoop] at hx
    · rw [ej]
      exact hinv
    · rw [ej]
    · rw [ej]
      omega
  | cons f rest ih =>
    intro job k hinv hslack
    by_cases h : stopF k = true
    · have ej : (fileLoop stopF now (f :: rest) job k).job = job := by
        simp [fileLoop, h]
      refine ⟨?_, ?_, ?_, ?_⟩
      · intro x hx
        simp [fileLoop, h] at hx
      · rw [ej]
        exact hinv
      · rw [ej]
      · rw [ej]
        omega
    · cases hf : f.res with
      | failure msg =>
        set job2 := recordFileFailure (setCurrentFile job f.name) f.path msg
          with hj2
        have hinv2 : progressInv job2.progress := by
          simp [hj2, recordFileFailure, setCurrentFile, progressInv] at hinv ⊢
          simp [List.length_cons] at hslack
          omega
        have hslack2 : job2.progress.completed_files +
            job2.progress.failed_files + rest.length ≤
            job2.progress.total_files := by
          simp [hj2, recordFileFailure, setCurrentFile]
          simp [List.length_cons] at hslack
          omega
        have hrec := ih job2 (k + 1) hinv2 hslack2
        have etr : (fileLoop stopF now (f :: rest) job k).trace =
            setCurrentFile job f.name :: job2 ::
              (fileLoop stopF now rest job2 (k + 1)).trace := by
          simp [fileLoop, h, hf, hj2]
        have ejob : (fileLoop stopF now (f :: rest) job k).job =
            (fileLoop stopF now rest job2 (k + 1)).job := by
          simp [fileLoop, h, hf, hj2]
        have hinv1 : progressInv (setCurrentFile job f.name).progress := by
          simpa [setCurrentFile, progressInv] using hinv
        refine ⟨?_, ?_, ?_, ?_⟩
        · rw [etr]
          intro x hx
          rcases List.mem_cons.mp hx with hx | hx
          · exact hx ▸ hinv1
          rcases List.mem_cons.mp hx with hx | hx
          · exact hx ▸ hinv2
          · exact hrec.1 x hx
        · rw [ejob]
          exact hrec.2.1
        · rw [ejob, hrec.2.2.1]
          simp [hj2, recordFileFailure, setCurrentFile]
        · rw [ejob]
          have h3 := hrec.2.2.2
          have e2 : job2.progress.completed_files =
              job.progress.completed_files := by
            simp [hj2, recordFileFailure, setCurrentFile]
          have e3 : job2.progress.failed_files =
              job.progress.failed_files + 1 := by
            simp [hj2, recordFileFailure, setCurrentFile]
          simp [List.length_cons]
          omega
      | success rows batches =>
        set job2 := addFileTotals (setCurrentFile job f.name) batches.length
          rows with hj2
        set rb := batchLoop stopF f.path batches 0 job2 (k + 1) with hrb
        set job3 := completeFile now rb.job with hj3
        have e2f : job2.progress.completed_files =
              job.progress.completed_files ∧
            job2.progress.failed_files = job.progress.failed_files ∧
            job2.progress.total_files = job.progress.total_files ∧
            job2.progress.completed_batches =
              job.progress.completed_batches ∧
            job2.progress.failed_batches = job.progress.failed_batches ∧
            job2.progress.total_batches =
              job.progress.total_batches + batches.length := by
          refine ⟨?_, ?_, ?_, ?_, ?_, ?_⟩ <;>
            simp [hj2, addFileTotals, setCurrentFile]
        have hinv2 : progressInv job2.progress := by
          simp [progressInv] at hinv ⊢
          omega
        have hbslack : job2.progress.completed_batches +
            job2.progress.failed_batches + batches.length ≤
            job2.progress.total_batches := by
          simp [progressInv] at hinv
          omega
        have hbtr := batchLoop_trace_inv stopF f.path batches 0 job2 (k + 1)
          hinv2 hbslack
        rw [← hrb] at hbtr
        have hbp := batchLoop_preserves stopF f.path batches 0 job2 (k + 1)
        rw [← hrb] at hbp
        have hbb := batchLoop_batch_bound stopF f.path batches 0 job2 (k + 1)
        rw [← hrb] at hbb
        have hinvrb : progressInv rb.job.progress := by
          simp [progressInv] at hinv2 ⊢
          omega
        have hcp := completeFile_progress now rb.job
        rw [← hj3] at hcp
        have hinv3 : progressInv job3.progress := by
          simp [progressInv, hcp.1, hcp.2.1, hcp.2.2.1, hcp.2.2.2.1,
            hcp.2.2.2.2.1, hcp.2.2.2.2.2.1] at hinvrb ⊢
          simp [List.length_cons] at hslack
          omega
        have hslack3 : job3.progress.completed_files +
            job3.progress.failed_files + rest.length ≤
            job3.progress.total_files := by
          rw [hcp.1, hcp.2.1, hcp.2.2.1, hbp.1, hbp.2.1, hbp.2.2.1]
          simp [List.length_cons] at hslack
          omega
        have hrec := ih job3 (rb.k + 1) hinv3 hslack3
        have etr : (fileLoop stopF now (f :: rest) job k).trace =
            setCurrentFile job f.name :: job2 ::
              (rb.trace ++ job3 ::
                (fileLoop stopF now rest job3 (rb.k + 1)).trace) := by
          simp [fileLoop, h, hf, hj2, hrb, hj3]
        have ejob : (fileLoop stopF now (f :: rest) job k).job =
            (fileLoop stopF now rest job3 (rb.k + 1)).job := by
          simp [fileLoop, h, hf, hj2, hrb, hj3]
        have hinv1 : progressInv (setCurrentFile job f.name).progress := by
          simpa [setCurrentFile, progressInv] using hinv
        refine ⟨?_, ?_, ?_, ?_⟩
        · rw [etr]
          intro x hx
          rcases List.mem_cons.mp hx with hx | hx
          · exact hx ▸ hinv1
          rcases List.mem_cons.mp hx with hx | hx
          · exact hx ▸ hinv2
          rcases List.mem_append.mp hx with hx | hx
          · exact hbtr x hx
          rcases List.mem_cons.mp hx with hx | hx
          · exact hx ▸ hinv3
          · exact hrec.1 x hx
        · rw [ejob]
          exact hrec.2.1
        · rw [ejob, hrec.2.2.1, hcp.1, hbp.1]
          exact e2f.2.2.1
        · rw [ejob]
          have h4 := hrec.2.2.2
          have e5 : job3.progress.completed_files =
              job.progress.completed_files + 1 := by
            rw [hcp.2.1, hbp.2.1]
            omega
          have e6 : job3.progress.failed_files =
              job.progress.failed_files := by
            rw [hcp.2.2.1, hbp.2.2.1]
            omega
          simp [List.length_cons]
          omega

theorem keywordRecords_append (a b : List ResultEntry) :
    keywordRecords (a ++ b) = keywordRecords a ++ keywordRecords b := by
  simp [keywordRecords]

theorem fileLoop_results_extension (stopF : Nat → Bool) (now : Nat) :
    ∀ (files : List FileInput) (job : Job) (k : Nat),
      ∃ d, (fileLoop stopF now files job k).job.results =
        job.results ++ d := by
  intro files
  induction files with
  | nil => intro job k; exact ⟨[], by simp [fileLoop]⟩
  | cons f rest ih =>
    intro job k
    by_cases h : stopF k = true
    · exact ⟨[], by simp [fileLoop, h]⟩
    · cases hf : f.res with
      | failure msg =>
        obtain ⟨d, hd⟩ := ih
          (recordFileFailure (setCurrentFile job f.name) f.path msg) (k + 1)
        refine ⟨ResultEntry.fileFailure f.path msg :: d, ?_⟩
        have ejob : (fileLoop stopF now (f :: rest) job k).job =
            (fileLoop stopF now rest
              (recordFileFailure (setCurrentFile job f.name) f.path msg)
              (k + 1)).job := by
          simp [fileLoop, h, hf]
        rw [ejob, hd]
        simp [recordFileFailure, setCurrentFile]
      | success rows batches =>
        set job2 := addFileTotals (setCurrentFile job f.name) batches.length
          rows with hj2
        set rb := batchLoop stopF f.path batches 0 job2 (k + 1) with hrb
        set job3 := completeFile now rb.job with hj3
        obtain ⟨d2, hd2⟩ :=
          batchLoop_results_extension stopF f.path batches 0 job2 (k + 1)
        rw [← hrb] at hd2
        obtain ⟨d3, hd3⟩ := ih job3 (rb.k + 1)
        have hcp := completeFile_progress now rb.job
        rw [← hj3] at hcp
        have e2 : job2.results = job.results := by
          simp [hj2, addFileTotals, setCurrentFile]
        have ejob : (fileLoop stopF now (f :: rest) job k).job =
            (fileLoop stopF now rest job3 (rb.k + 1)).job := by
          simp [fileLoop, h, hf, hj2, hrb, hj3]
        refine ⟨d2 ++ d3, ?_⟩
        rw [ejob, hd3, hcp.2.2.2.2.2.2.2.2.1, hd2, e2]
        simp

theorem fileLoop_saves (stopF : Nat → Bool) (now : Nat) :
    ∀ (files : List FileInput) (job : Job) (k : Nat),
      (∀ p ∈ (fileLoop stopF now files job k).saves,
        keywordRecords job.results <+: p.2 ∧
        p.2 <+: keywordRecords (fileLoop stopF now files job k).job.results) ∧
      List.Pairwise (fun a b => a.2 <+: b.2)
        (fileLoop stopF now files job k).saves := by
  intro files
  induction files with
  | nil =>
    intro job k
    constructor
    · intro p hp
      simp [fileLoop] at hp
    · simp [fileLoop]
  | cons f rest ih =>
    intro job k
    by_cases h : stopF k = true
    · constructor
      · intro p hp
        simp [fileLoop, h] at hp
      · simp [fileLoop, h]
    · cases hf : f.res with
      | failure msg =>
        set job2 := recordFileFailure (setCurrentFile job f.name) f.path msg
          with hj2
        have hrec := ih job2 (k + 1)
        have e2 : job2.results = job.results ++
            [ResultEntry.fileFailure f.path msg] := by
          simp [hj2, recordFileFailure, setCurrentFile]
        have ejob : (fileLoop stopF now (f :: rest) job k).job =
            (fileLoop stopF now rest job2 (k + 1)).job := by
          simp [fileLoop, h, hf, hj2]
        have esv : (fileLoop stopF now (f :: rest) job k).saves =
            (fileLoop stopF now rest job2 (k + 1)).saves := by
          simp [fileLoop, h, hf, hj2]
        rw [ejob, esv]
        refine ⟨?_, hrec.2⟩
        intro p hp
        obtain ⟨hlo, hhi⟩ := hrec.1 p hp
        refine ⟨?_, hhi⟩
        refine List.IsPrefix.trans ?_ hlo
        rw [e2, keywordRecords_append]
        exact List.prefix_append _ _
      | success rows batches =>
        set job2 := addFileTotals (setCurrentFile job f.name) batches.length
          rows with hj2
        set rb := batchLoop stopF f.path batches 0 job2 (k + 1) with hrb
        set job3 := completeFile now rb.job with hj3
        have hrec := ih job3 (rb.k + 1)
        obtain ⟨d2, hd2⟩ :=
          batchLoop_results_extension stopF f.path batches 0 job2 (k + 1)
        rw [← hrb] at hd2
        obtain ⟨d3, hd3⟩ :=
          fileLoop_results_extension stopF now rest job3 (rb.k + 1)
        have hcp := completeFile_progress now rb.job
        rw [← hj3] at hcp
        have e2 : job2.results = job.results := by
          simp [hj2, addFileTotals, setCurrentFile]
        have e3 : job3.results = rb.job.results := hcp.2.2.2.2.2.2.2.2.1
        have ejob : (fileLoop stopF now (f :: rest) job k).job =
            (fileLoop stopF now rest job3 (rb.k + 1)).job := by
          simp [fileLoop, h, hf, hj2, hrb, hj3]
        have esv : (fileLoop stopF now (f :: rest) job k).saves =
            (if stopF rb.k then []
             else [("processed_" ++ f.stem ++ ".xlsx",
               keywordRecords rb.job.results)]) ++
              (fileLoop stopF now rest job3 (rb.k + 1)).saves := by
          simp [fileLoop, h, hf, hj2, hrb, hj3]
        have hlow : keywordRecords job.results <+:
            keywordRecords rb.job.results := by
          rw [hd2, e2, keywordRecords_append]
          exact List.prefix_append _ _
        have hup : keywordRecords rb.job.results <+:
            keywordRecords (fileLoop stopF now rest job3 (rb.k + 1)).job.results := by
          rw [hd3, e3, keywordRecords_append]
          exact List.prefix_append _ _
        have hlow3 : ∀ p ∈ (fileLoop stopF now rest job3 (rb.k + 1)).saves,
            keywordRecords rb.job.results <+: p.2 := by
          intro p hp
          have := (hrec.1 p hp).1
          rw [e3] at this
          exact this
        rw [ejob, esv]
        constructor
        · intro p hp
          rcases List.mem_append.mp hp with hp | hp
          · by_cases hsv : stopF rb.k = true
            · simp [hsv] at hp
            · simp [hsv] at hp
              rw [hp]
              exact ⟨hlow, hup⟩
          · obtain ⟨hlo, hhi⟩ := hrec.1 p hp
            exact ⟨List.IsPrefix.trans hlow (by rw [← e3]; exact hlo), hhi⟩
        · rw [List.pairwise_append]
          refine ⟨?_, hrec.2, ?_⟩
          · by_cases hsv : stopF rb.k = true
            · simp [hsv]
            · simp [hsv]
          · intro a ha b hb
            by_cases hsv : stopF rb.k = true
            · simp [hsv] at ha
            · simp [hsv] at ha
              rw [ha]
              exact hlow3 b hb

theorem filter_length_eq_length_iff {α : Type} (p : α → Bool) (l : List α) :
    (l.filter p).length = l.length ↔ ∀ a ∈ l, p a = true := by
  constructor
  · intro h
    have he := (List.filter_sublist l).eq_of_length h
    intro a ha
    exact List.filter_eq_self.mp he a ha
  · intro h
    rw [List.filter_eq_self.mpr h]

/-! ## Concrete inputs used by witnesses and counterexamples -/

def recA : KwRec := ⟨"alpha", []⟩

def recB : KwRec := ⟨"beta", []⟩

def fileA : FileInput :=
  ⟨"in/a.xlsx", "a.xlsx", "a", FileOutcome.success 1 [APIOutcome.ok [recA]]⟩

def fileB : FileInput :=
  ⟨"in/b.xlsx", "b.xlsx", "b", FileOutcome.success 1 [APIOutcome.ok [recB]]⟩

def fileBad : FileInput :=
  ⟨"in/x.xlsx", "x.xlsx", "x",
    FileOutcome.failure "Missing required columns: cpc"⟩

/-- A freshly started job (status Running, `started_at` stamped). -/
def runningJob5 : Job :=
  { job_id := "job_5", input_folder := "i", output_folder := "o",
    status := JobStatus.running, progress := {}, results := [],
    error_message := "", created_at := 5, started_at := some 6,
    completed_at := none, config := [] }

/-- Stop never requested during the run. -/
def noStop : Nat → Bool := fun _ => false

/-- Stop flag raised only from the fourth read on: with one successful
single-batch file the checkpoint reads are 0 (file) and 1 (batch), the
save-guard read is 2 and the finalization read is 3 — so no checkpoint
observes stop but finalization does.  This is the interleaving where
`stop_job` succeeds between the last checkpoint and line 411 (the status
is still Running then). -/
def lateStop : Nat → Bool := fun i => decide (3 ≤ i)

/-! ## Claims -/

/-- C1: every registry operation called with an unknown job id returns
false / not-found, every lifecycle operation called on a job whose status
does not permit the transition returns false, and in all these cases the
registry state — job records, progress, results and control flags — is
returned unchanged. -/
theorem C1_rejected_ops_leave_state_unchanged
    (s : TMState) (now : Nat) (id : String) :
    (dictGet s.jobs id = none →
      start_job s now id = (false, s) ∧
      pause_job s id = (false, s) ∧
      resume_job s id = (false, s) ∧
      stop_job s id = (false, s) ∧
      get_job_status s now id = (none, s) ∧
      get_job_results s id = (none, s)) ∧
    (∀ job : Job, dictGet s.jobs id = some job →
      (job.status ≠ JobStatus.pending → start_job s now id = (false, s)) ∧
      (job.status ≠ JobStatus.running → pause_job s id = (false, s)) ∧
      (job.status ≠ JobStatus.paused → resume_job s id = (false, s)) ∧
      (job.status ≠ JobStatus.running ∧ job.status ≠ JobStatus.paused →
        stop_job s id = (false, s))) := by
  constructor
  · intro h
    simp [start_job, pause_job, resume_job, stop_job, get_job_status,
      get_job_results, h]
  · intro job h
    refine ⟨fun hs => ?_, fun hs => ?_, fun hs => ?_, fun hs => ?_⟩
    · simp [start_job, h, hs]
    · simp [pause_job, h, hs]
    · simp [resume_job, h, hs]
    · simp [stop_job, h, hs.1, hs.2]

/-- The record that `create_job` inserts at second 5 for folders "i"/"o". -/
def pendingJob5 : Job :=
  { job_id := "job_5", input_folder := "i", output_folder := "o",
    status := JobStatus.pending, progress := {}, results := [],
    error_message := "", created_at := 5, started_at := none,
    completed_at := none, config := [] }

theorem C1_witness :
    start_job (create_job newTaskManager 5 "i" "o" []).2 6 "nope" =
      (false, (create_job newTaskManager 5 "i" "o" []).2) ∧
    pause_job (create_job newTaskManager 5 "i" "o" []).2 "job_5" =
      (false, (create_job newTaskManager 5 "i" "o" []).2) := by
  have h := C1_rejected_ops_leave_state_unchanged
    (create_job newTaskManager 5 "i" "o" []).2 6 "nope"
  have h2 := C1_rejected_ops_leave_state_unchanged
    (create_job newTaskManager 5 "i" "o" []).2 6 "job_5"
  refine ⟨(h.1 (by decide)).1, ?_⟩
  exact ((h2.2 pendingJob5 (by decide)).2.1) (by decide)

/-- C5 (code bug): `create_job` derives the id from `int(time.time())`, so
two calls in the same wall-clock second return the same id and the second
insert replaces the first job record: here both calls at second 5 return
`job_5`, afterwards the map holds a single record whose `input_folder` is
the second call's, and the first record is gone. -/
theorem C5_same_second_create_reuses_id_and_overwrites :
    (create_job newTaskManager 5 "inA" "outA" []).1 =
      (create_job (create_job newTaskManager 5 "inA" "outA" []).2
        5 "inB" "outB" []).1 ∧
    (dictGet (create_job (create_job newTaskManager 5 "inA" "outA" []).2
        5 "inB" "outB" []).2.jobs "job_5").map Job.input_folder = some "inB" ∧
    (create_job (create_job newTaskManager 5 "inA" "outA" []).2
        5 "inB" "outB" []).2.jobs.length = 1 := by
  decide

/-- C6 (code bug): after `create` then a successful `start` at second 5, a
second `create` in the same second reuses id `job_5` and resets the record
to `Pending`, so a further `start` on the same id succeeds again — both
`start` calls return true. -/
theorem C6_double_start_possible_after_same_second_recreate :
    (start_job (create_job newTaskManager 5 "inA" "outA" []).2 5 "job_5").1 =
      true ∧
    (start_job
      (create_job
        (start_job (create_job newTaskManager 5 "inA" "outA" []).2 5 "job_5").2
        5 "inB" "outB" []).2
      5 "job_5").1 = true := by
  decide

/-- C8 counterexample: two back-to-back `status` queries with no job
activity in between (query times 10 and 11) return different progress
snapshots, because each call stamps `last_updated` with its own query
time and returns it. -/
theorem C8_counterexample_snapshots_differ :
    ((get_job_status
        (get_job_status (create_job newTaskManager 5 "i" "o" []).2
          10 "job_5").2
        11 "job_5").1.map StatusView.progress) ≠
    ((get_job_status (create_job newTaskManager 5 "i" "o" []).2
        10 "job_5").1.map StatusView.progress) := by
  decide

/-- Progress snapshot with the `last_updated` stamp blanked out. -/
def clearLastUpdated (p : JobProgress) : JobProgress :=
  { p with last_updated := 0 }

theorem get_job_status_found (s : TMState) (now : Nat) (id : String)
    (job : Job) (h : dictGet s.jobs id = some job) :
    get_job_status s now id =
      (some (statusView { job with progress := { job.progress with last_updated := now } }),
       { s with
         jobs := dictSet s.jobs id { job with progress := { job.progress with last_updated := now } } }) := by
  simp [get_job_status, h]

/-- C8 amended: two back-to-back `status` queries with no job activity in
between return progress snapshots that are identical except for the
`last_updated` field, which each call refreshes to its own query time (so
the snapshots are identical whenever both calls observe the same clock
reading). -/
theorem C8_amended_status_idempotent_up_to_last_updated
    (s : TMState) (t1 t2 : Nat) (id : String) (v1 v2 : StatusView)
    (h1 : (get_job_status s t1 id).1 = some v1)
    (h2 : (get_job_status (get_job_status s t1 id).2 t2 id).1 = some v2) :
    clearLastUpdated v1.progress = clearLastUpdated v2.progress ∧
    v1.progress.last_updated = t1 ∧ v2.progress.last_updated = t2 := by
  match hj : dictGet s.jobs id with
  | none => simp [get_job_status, hj] at h1
  | some job =>
    rw [get_job_status_found s t1 id job hj] at h1 h2
    rw [get_job_status_found _ t2 id _ (dictGet_dictSet_self s.jobs id _)] at h2
    have hv1 : v1 = statusView
        { job with progress := { job.progress with last_updated := t1 } } := by
      simpa using h1.symm
    have hv2 : v2 = statusView
        { job with progress := { job.progress with last_updated := t2 } } := by
      simpa using h2.symm
    subst hv1
    subst hv2
    exact ⟨rfl, rfl, rfl⟩

def c8state : TMState := (create_job newTaskManager 5 "i" "o" []).2

def c8view1 : StatusView :=
  { job_id := "job_5", status := JobStatus.pending,
    progress := { last_updated := 10 }, input_folder := "i",
    output_folder := "o", created_at := 5, started_at := none,
    completed_at := none, error_message := "", config := [] }

def c8view2 : StatusView :=
  { c8view1 with progress := { c8view1.progress with last_updated := 11 } }

theorem C8_amended_witness :
    clearLastUpdated c8view1.progress = clearLastUpdated c8view2.progress ∧
    c8view1.progress.last_updated = 10 ∧ c8view2.progress.last_updated = 11 :=
  C8_amended_status_idempotent_up_to_last_updated c8state 10 11 "job_5"
    c8view1 c8view2 (by decide) (by decide)

/-- C9: when the try block of the driver ends in an exception with message
`msg`, the job record is driven to `Failed` with `error_message = msg` and
a `completed_at` stamp, the exception is absorbed (the exit function is
total), and on every exit path — normal, cancelled or exceptional — the
job's thread handle, stop flag and pause flag are removed from the
tracking maps. -/
theorem C9_driver_exception_fails_job_and_cleans_up
    (s : TMState) (now : Nat) (id msg : String) (job : Job)
    (h : dictGet s.jobs id = some job) :
    dictGet (driverExit s now id (Except.error msg)).jobs id =
      some { job with
             status := JobStatus.failed, error_message := msg,
             completed_at := some now } ∧
    ∀ outcome : Except String Unit,
      id ∉ (driverExit s now id outcome).active_threads ∧
      dictGet (driverExit s now id outcome).stop_flags id = none ∧
      dictGet (driverExit s now id outcome).pause_flags id = none := by
  constructor
  · simp [driverExit, h, dictGet_dictSet_self]
  · intro outcome
    exact ⟨not_mem_threadDelete _ _, dictGet_dictErase_self _ _,
      dictGet_dictErase_self _ _⟩

def c9state : TMState := (create_job newTaskManager 5 "i" "o" []).2

theorem C9_witness :
    dictGet (driverExit c9state 9 "job_5" (Except.error "boom")).jobs
        "job_5" =
      some { pendingJob5 with
             status := JobStatus.failed, error_message := "boom",
             completed_at := some 9 } ∧
    ∀ outcome : Except String Unit,
      "job_5" ∉ (driverExit c9state 9 "job_5" outcome).active_threads ∧
      dictGet (driverExit c9state 9 "job_5" outcome).stop_flags "job_5" =
        none ∧
      dictGet (driverExit c9state 9 "job_5" outcome).pause_flags "job_5" =
        none :=
  C9_driver_exception_fails_job_and_cleans_up c9state 9 "job_5" "boom"
    pendingJob5 (by decide)

/-- C10: a started job whose scan returns an empty file list is finalized
as `Failed` with error message "All files failed to process" (not
`Completed`), because the finalization test compares
`failed_files = 0` against `total_files = 0`. -/
theorem C10_empty_scan_finalizes_failed
    (s : TMState) (now : Nat) (id : String) (job : Job) (stopF : Nat → Bool)
    (h : dictGet s.jobs id = some job) (h0 : job.progress = {})
    (hs : stopF 0 = false) :
    (dictGet (process_job s now id stopF (Except.ok [])).1.jobs id).map
        Job.status = some JobStatus.failed ∧
    (dictGet (process_job s now id stopF (Except.ok [])).1.jobs id).map
        Job.error_message = some "All files failed to process" := by
  simp [process_job, h, runTry, fileLoop, finalizeJob, h0, hs, driverExit,
    dictGet_dictSet_self]

def c10state : TMState :=
  (start_job (create_job newTaskManager 5 "i" "o" []).2 6 "job_5").2

def c10job : Job :=
  { job_id := "job_5", input_folder := "i", output_folder := "o",
    status := JobStatus.running, progress := {}, results := [],
    error_message := "", created_at := 5, started_at := some 6,
    completed_at := none, config := [] }

theorem C10_witness :
    (dictGet (process_job c10state 9 "job_5" (fun _ => false)
        (Except.ok [])).1.jobs "job_5").map Job.status =
      some JobStatus.failed ∧
    (dictGet (process_job c10state 9 "job_5" (fun _ => false)
        (Except.ok [])).1.jobs "job_5").map Job.error_message =
      some "All files failed to process" :=
  C10_empty_scan_finalizes_failed c10state 9 "job_5" c10job (fun _ => false)
    (by decide) (by decide) (by decide)

/-- C2 counterexample: on one successful single-batch file with the stop
flag first observed true at the finalization read (index 3, `lateStop`),
no checkpoint observes stop (`obs = false`) and not every item failed
(`failed_files = 0` of 1), yet the final status is `Cancelled` — the claim
as stated would require `Completed`. -/
theorem C2_counterexample_stop_after_last_checkpoint :
    (runTry lateStop 9 [fileA] runningJob5).obs = false ∧
    (runTry lateStop 9 [fileA] runningJob5).job.progress.failed_files = 0 ∧
    [fileA].length = 1 ∧
    (runTry lateStop 9 [fileA] runningJob5).job.status =
      JobStatus.cancelled := by
  decide

/-- C2 amended: when the driver finishes its loop without an internal
exception, the final status is decided by the stop-flag value read at the
finalization step (not only by checkpoint observations): Cancelled if that
read is true; otherwise Failed if `failed_files` equals the number of
enumerated items; otherwise Completed.  `completed_at` is stamped in the
same step.  Since the flag is never cleared during a run (monotone
oracle), observation at any checkpoint still forces Cancelled; and in a
run where stop is never requested, Failed holds exactly when every
enumerated item failed. -/
theorem C2_amended_final_status (stopF : Nat → Bool) (now : Nat)
    (files : List FileInput) (job0 : Job)
    (h0 : job0.progress = {}) (hm : MonoOracle stopF) :
    (runTry stopF now files job0).job.completed_at = some now ∧
    (runTry stopF now files job0).job.status =
      (if stopF (runTry stopF now files job0).k then JobStatus.cancelled
       else if (runTry stopF now files job0).job.progress.failed_files =
           files.length then JobStatus.failed
       else JobStatus.completed) ∧
    ((runTry stopF now files job0).obs = true →
      (runTry stopF now files job0).job.status = JobStatus.cancelled) ∧
    ((∀ i, stopF i = false) →
      ((runTry stopF now files job0).job.status = JobStatus.failed ↔
        ∀ f ∈ files, isFailureFile f = true)) := by
  set jobA : Job :=
    { job0 with progress := { job0.progress with total_files := files.length } }
    with hA
  set rf := fileLoop stopF now files jobA 0 with hrf
  set jobZ := finalizeJob (stopF rf.k) files.length now rf.job with hZ
  have ejob : (runTry stopF now files job0).job = jobZ := by
    simp [runTry, hA, hrf, hZ]
  have ek : (runTry stopF now files job0).k = rf.k := by
    simp [runTry, hA, hrf, hZ]
  have eobs : (runTry stopF now files job0).obs = rf.obs := by
    simp [runTry, hA, hrf, hZ]
  have hZf := finalizeJob_fields (stopF rf.k) files.length now rf.job
  rw [← hZ] at hZf
  have hZs := finalizeJob_status (stopF rf.k) files.length now rf.job
  rw [← hZ] at hZs
  have epr : jobZ.progress.failed_files = rf.job.progress.failed_files := by
    rw [hZf.1]
  refine ⟨?_, ?_, ?_, ?_⟩
  · rw [ejob]
    exact hZf.2.2
  · rw [ejob, ek, hZs, epr]
  · rw [eobs, ejob]
    intro hobs
    obtain ⟨i, _, hi2, hi3⟩ := (fileLoop_k_obs stopF now files jobA 0).2
      (by rw [← hrf] at *; exact hobs)
    have hk : stopF rf.k = true := hm i rf.k (Nat.le_of_lt hi2) hi3
    rw [hZs, hk]
    simp
  · intro hs
    rw [ejob, hZs, hs rf.k]
    have hn := fileLoop_nostop stopF now hs files jobA 0
    rw [← hrf] at hn
    have hAff : jobA.progress.failed_files = 0 := by
      simp [hA, h0]
    rw [hn.2.1, hAff]
    simp only [Nat.zero_add]
    constructor
    · intro hfa
      by_cases hc : (files.filter isFailureFile).length = files.length
      · exact (filter_length_eq_length_iff isFailureFile files).mp hc
      · rw [if_neg hc] at hfa
        exact absurd hfa (by simp)
    · intro hall
      rw [if_pos ((filter_length_eq_length_iff isFailureFile files).mpr hall)]
      simp

theorem C2_witness :
    (runTry noStop 9 [fileA] runningJob5).job.completed_at = some 9 ∧
    (runTry noStop 9 [fileA] runningJob5).job.status =
      (if noStop (runTry noStop 9 [fileA] runningJob5).k then
        JobStatus.cancelled
       else if (runTry noStop 9 [fileA] runningJob5).job.progress.failed_files =
           [fileA].length then JobStatus.failed
       else JobStatus.completed) ∧
    ((runTry noStop 9 [fileA] runningJob5).obs = true →
      (runTry noStop 9 [fileA] runningJob5).job.status =
        JobStatus.cancelled) ∧
    ((∀ i, noStop i = false) →
      ((runTry noStop 9 [fileA] runningJob5).job.status = JobStatus.failed ↔
        ∀ f ∈ [fileA], isFailureFile f = true)) :=
  C2_amended_final_status noStop 9 [fileA] runningJob5 (by decide)
    (fun i j _ hi => by simp [noStop] at hi)

/-- C3: an item whose parse/validation fails contributes exactly one
failure entry tagged with that item and one `failed_files` increment, and
the driver continues with the next item: over three items where only the
second fails (the successful ones with all API batches succeeding, stop
never requested, fresh job), the run ends with `completed_files = 2`,
`failed_files = 1`, terminal status `Completed`, and exactly one failure
entry in `results`, referencing item 2. -/
theorem C3_item_failure_recorded_and_processing_continues
    (stopF : Nat → Bool) (now : Nat) (f1 f2 f3 : FileInput) (job0 : Job)
    (msg : String) (n1 n3 : Nat) (bs1 bs3 : List APIOutcome)
    (hs : ∀ i, stopF i = false) (h0 : job0.progress = {})
    (hres : job0.results = [])
    (h1 : f1.res = FileOutcome.success n1 bs1) (hok1 : allOk bs1 = true)
    (h2 : f2.res = FileOutcome.failure msg)
    (h3 : f3.res = FileOutcome.success n3 bs3) (hok3 : allOk bs3 = true) :
    (runTry stopF now [f1, f2, f3] job0).job.progress.completed_files = 2 ∧
    (runTry stopF now [f1, f2, f3] job0).job.progress.failed_files = 1 ∧
    (runTry stopF now [f1, f2, f3] job0).job.status = JobStatus.completed ∧
    (runTry stopF now [f1, f2, f3] job0).job.results.filter isFailureEntry =
      [ResultEntry.fileFailure f2.path msg] := by
  set jobA : Job :=
    { job0 with
      progress := { job0.progress with total_files := [f1, f2, f3].length } }
    with hA
  set rf := fileLoop stopF now [f1, f2, f3] jobA 0 with hrf
  set jobZ := finalizeJob (stopF rf.k) [f1, f2, f3].length now rf.job with hZ
  have ejob : (runTry stopF now [f1, f2, f3] job0).job = jobZ := by
    simp [runTry, hA, hrf, hZ]
  have hZf := finalizeJob_fields (stopF rf.k) [f1, f2, f3].length now rf.job
  rw [← hZ] at hZf
  have hZs := finalizeJob_status (stopF rf.k) [f1, f2, f3].length now rf.job
  rw [← hZ] at hZs
  have hn := fileLoop_nostop stopF now hs [f1, f2, f3] jobA 0
  rw [← hrf] at hn
  have hff1 : isFailureFile f1 = false := by simp [isFailureFile, h1]
  have hff2 : isFailureFile f2 = true := by simp [isFailureFile, h2]
  have hff3 : isFailureFile f3 = false := by simp [isFailureFile, h3]
  have hAp : jobA.progress.failed_files = 0 ∧
      jobA.progress.completed_files = 0 := by
    constructor <;> simp [hA, h0]
  have hAr : jobA.results = [] := by
    simp [hA, hres]
  have hcf : rf.job.progress.completed_files = 2 := by
    rw [hn.2.2.1, hAp.2]
    simp [List.filter_cons, hff1, hff2, hff3]
  have hffc : rf.job.progress.failed_files = 1 := by
    rw [hn.2.1, hAp.1]
    simp [List.filter_cons, hff1, hff2, hff3]
  refine ⟨?_, ?_, ?_, ?_⟩
  · rw [ejob, hZf.1]
    exact hcf
  · rw [ejob, hZf.1]
    exact hffc
  · rw [ejob, hZs, hs rf.k, hffc]
    simp
  · rw [ejob, hZf.2.1, hn.1, hAr]
    simp only [List.nil_append, List.map_cons, List.map_nil,
      List.flatten_cons, List.flatten_nil, List.filter_append]
    rw [fileEntries, h1, fileEntries, h2, fileEntries, h3]
    rw [batchEntries_allOk_no_failures f1.path bs1 0 hok1,
      batchEntries_allOk_no_failures f3.path bs3 0 hok3]
    simp [isFailureEntry]

theorem C3_witness :
    (runTry noStop 9 [fileA, fileBad, fileB]
        runningJob5).job.progress.completed_files = 2 ∧
    (runTry noStop 9 [fileA, fileBad, fileB]
        runningJob5).job.progress.failed_files = 1 ∧
    (runTry noStop 9 [fileA, fileBad, fileB] runningJob5).job.status =
      JobStatus.completed ∧
    (runTry noStop 9 [fileA, fileBad, fileB]
        runningJob5).job.results.filter isFailureEntry =
      [ResultEntry.fileFailure fileBad.path
        "Missing required columns: cpc"] :=
  C3_item_failure_recorded_and_processing_continues noStop 9 fileA fileBad
    fileB runningJob5 "Missing required columns: cpc" 1 1
    [APIOutcome.ok [recA]] [APIOutcome.ok [recB]]
    (fun _ => rfl) (by decide) (by decide)
    (by decide) (by decide) (by decide) (by decide) (by decide)

/-- C4: starting from a freshly created job (zeroed progress), every job
snapshot taken after any critical section of the driver run — whatever the
collaborator outcomes and however the stop flag behaves — satisfies
completed+failed ≤ total at both the file and the batch granularity, and
the eight progress counters are monotonically non-decreasing along the
whole sequence of updates. -/
theorem C4_progress_invariant_and_counters_monotone (stopF : Nat → Bool)
    (now : Nat) (files : List FileInput) (job0 : Job)
    (h0 : job0.progress = {}) :
    (∀ j ∈ job0 :: (runTry stopF now files job0).trace,
      progressInv j.progress) ∧
    List.Chain' jobCounterLE
      (job0 :: (runTry stopF now files job0).trace) := by
  set jobA : Job :=
    { job0 with progress := { job0.progress with total_files := files.length } }
    with hA
  set rf := fileLoop stopF now files jobA 0 with hrf
  set jobZ := finalizeJob (stopF rf.k) files.length now rf.job with hZ
  have etr : (runTry stopF now files job0).trace =
      jobA :: (rf.trace ++ [jobZ]) := by
    simp [runTry, hA, hrf, hZ]
  have hinvA : progressInv jobA.progress := by
    simp [hA, h0, progressInv]
  have hslackA : jobA.progress.completed_files +
      jobA.progress.failed_files + files.length ≤
      jobA.progress.total_files := by
    simp [hA, h0]
  have hfi := fileLoop_trace_inv stopF now files jobA 0 hinvA hslackA
  rw [← hrf] at hfi
  have hfc := fileLoop_chain stopF now files jobA 0
  rw [← hrf] at hfc
  have hZf := finalizeJob_fields (stopF rf.k) files.length now rf.job
  rw [← hZ] at hZf
  have h0A : jobCounterLE job0 jobA := by
    simp [jobCounterLE, counterLE, hA, h0]
  have hZinv : progressInv jobZ.progress := by
    rw [hZf.1]
    exact hfi.2.1
  constructor
  · rw [etr]
    intro j hj
    rcases List.mem_cons.mp hj with hj | hj
    · rw [hj, h0]
      simp [progressInv]
    rcases List.mem_cons.mp hj with hj | hj
    · exact hj ▸ hinvA
    rcases List.mem_append.mp hj with hj | hj
    · exact hfi.1 j hj
    · rw [List.mem_singleton.mp hj]
      exact hZinv
  · rw [etr]
    refine List.chain'_cons.mpr ⟨h0A, ?_⟩
    have hgrp : jobA :: (rf.trace ++ [jobZ]) =
        (jobA :: rf.trace) ++ [jobZ] := by
      simp
    rw [hgrp]
    refine List.chain'_append.mpr ⟨hfc.1, List.chain'_singleton jobZ, ?_⟩
    intro x hx y hy
    rw [hfc.2] at hx
    simp only [Option.mem_def, Option.some.injEq] at hx
    simp only [List.head?_cons, Option.mem_def, Option.some.injEq] at hy
    rw [← hx, ← hy]
    show jobCounterLE rf.job jobZ
    rw [jobCounterLE, hZf.1]
    exact counterLE_refl rf.job.progress

theorem C4_witness :
    (∀ j ∈ runningJob5 ::
        (runTry lateStop 9 [fileA, fileBad] runningJob5).trace,
      progressInv j.progress) ∧
    List.Chain' jobCounterLE
      (runningJob5 ::
        (runTry lateStop 9 [fileA, fileBad] runningJob5).trace) :=
  C4_progress_invariant_and_counters_monotone lateStop 9 [fileA, fileBad]
    runningJob5 (by decide)

/-- C7 counterexample: two successful single-batch files producing records
`recA` then `recB`, no stop.  The second persistence call hands over
`[recA, recB]` — including `recA`, which belongs to the first item — not
just the second item's `[recB]`. -/
theorem C7_counterexample_save_includes_previous_items_records :
    (runTry noStop 9 [fileA, fileB] runningJob5).saves =
      [("processed_a.xlsx", [recA]), ("processed_b.xlsx", [recA, recB])] ∧
    recA ≠ recB := by
  decide

/-- C7 amended: after each item's batch loop (when the stop flag read at
the guard is false) the driver persists the keyword-carrying records
accumulated in the job's `results` across ALL items processed so far, not
just the current item's: every persisted list is a prefix of the final
run's successful-record list, successive persisted lists extend each
other, and in a run without stop there is exactly one persistence call per
successfully parsed file, named `processed_<stem>.xlsx`, in order (the
call is skipped whenever the stop flag is set at the guard read). -/
theorem C7_amended_saves_accumulate_whole_job (stopF : Nat → Bool)
    (now : Nat) (files : List FileInput) (job0 : Job) :
    (∀ p ∈ (runTry stopF now files job0).saves,
      p.2 <+: keywordRecords (runTry stopF now files job0).job.results) ∧
    List.Pairwise (fun a b => a.2 <+: b.2)
      (runTry stopF now files job0).saves ∧
    ((∀ i, stopF i = false) →
      (runTry stopF now files job0).saves.map Prod.fst =
        (files.filter (fun g => !isFailureFile g)).map
          (fun g => "processed_" ++ g.stem ++ ".xlsx")) := by
  set jobA : Job :=
    { job0 with progress := { job0.progress with total_files := files.length } }
    with hA
  set rf := fileLoop stopF now files jobA 0 with hrf
  set jobZ := finalizeJob (stopF rf.k) files.length now rf.job with hZ
  have ejob : (runTry stopF now files job0).job = jobZ := by
    simp [runTry, hA, hrf, hZ]
  have esv : (runTry stopF now files job0).saves = rf.saves := by
    simp [runTry, hA, hrf, hZ]
  have hZf := finalizeJob_fields (stopF rf.k) files.length now rf.job
  rw [← hZ] at hZf
  have hsv := fileLoop_saves stopF now files jobA 0
  rw [← hrf] at hsv
  refine ⟨?_, ?_, ?_⟩
  · intro p hp
    rw [esv] at hp
    rw [ejob, hZf.2.1]
    exact (hsv.1 p hp).2
  · rw [esv]
    exact hsv.2
  · intro hs
    have hn := fileLoop_nostop stopF now hs files jobA 0
    rw [← hrf] at hn
    rw [esv]
    exact hn.2.2.2.2

theorem C7_witness :
    (∀ p ∈ (runTry noStop 9 [fileA, fileB] runningJob5).saves,
      p.2 <+: keywordRecords
        (runTry noStop 9 [fileA, fileB] runningJob5).job.results) ∧
    List.Pairwise (fun a b => a.2 <+: b.2)
      (runTry noStop 9 [fileA, fileB] runningJob5).saves ∧
    ((∀ i, noStop i = false) →
      (runTry noStop 9 [fileA, fileB] runningJob5).saves.map Prod.fst =
        ([fileA, fileB].filter (fun g => !isFailureFile g)).map
          (fun g => "processed_" ++ g.stem ++ ".xlsx")) :=
  C7_amended_saves_accumulate_whole_job noStop 9 [fileA, fileB] runningJob5

end KeywordBatch
